import Mathlib

/-!
Shallow embedding of the `vote-liq` LiquidityManager (TypeScript implementation,
`src/index.ts` as concatenated in `src/main.ts`).  JavaScript `number`s are
modelled as rationals (`ℚ`); all inputs in scope are exact decimal fractions, so
the arithmetic of the scenarios is exact.  JavaScript objects with string keys
preserve insertion order, so they are modelled as association lists
`List (String × α)`; a fresh key is appended at the end, an existing key is
updated in place.
-/

namespace VoteLiq

/-- A liquidity preference record `{token1, token2, weight}` (`src/types.ts`). -/
structure LiquidityPreference where
  token1 : String
  token2 : String
  weight : ℚ
deriving DecidableEq

/-- Ownership details `{percentage, tokens, voting_power}` (`src/types.ts`). -/
structure OwnershipDetails where
  percentage : ℚ
  tokens : ℚ
  voting_power : ℚ
deriving DecidableEq

/-- The manager state: `signedTxs` (preference table) and `addyOwnership`
(ownership table), each a string-keyed object modelled as an association list
in insertion order. -/
structure LiquidityManagerState where
  signedTxs : List (String × List LiquidityPreference)
  addyOwnership : List (String × OwnershipDetails)
deriving DecidableEq

/-- Error values thrown by the TypeScript implementation, one constructor per
distinct `new Error(message)` in `src/index.ts`. -/
inductive LMError where
  /-- message `Invalid initialization data` -/
  | invalidInput
  /-- message `Address not found` -/
  | addressNotFound
  /-- message `Total weight cannot be zero` -/
  | totalWeightZero
  /-- message `Percentage must be between 0 and 1` -/
  | percentageOutOfRange
  /-- message `Pair not found` -/
  | pairNotFound
deriving DecidableEq

/-- Property lookup `obj[key]` on a JS object: `none` models `undefined`. -/
def lookupA {α : Type} (k : String) : List (String × α) → Option α
  | [] => none
  | (k', v) :: rest => if k' = k then some v else lookupA k rest

/-- Property assignment `obj[key] = v` on a JS object: overwrite in place if the
key exists, otherwise append (insertion order). -/
def upsertA {α : Type} (k : String) (v : α) : List (String × α) → List (String × α)
  | [] => [(k, v)]
  | (k', v') :: rest => if k' = k then (k, v) :: rest else (k', v') :: upsertA k v rest

/-- In-place mutation `f` of the value stored at an existing key. -/
def updateA {α : Type} (k : String) (f : α → α) : List (String × α) → List (String × α)
  | [] => []
  | (k', v) :: rest => if k' = k then (k', f v) :: rest else (k', v) :: updateA k f rest

/-- Embeds `initialize(data)` (`src/index.ts` lines 146-152).  The TS guard
`!data || typeof data !== 'object'` can only fire for `null`/`undefined`/
non-object arguments, modelled by the `none` case; a typed state is stored
verbatim (`this.state = data`). -/
def initializeState (s : LiquidityManagerState) (data : Option LiquidityManagerState) :
    Except LMError Unit × LiquidityManagerState :=
  data.elim (Except.error LMError.invalidInput, s) (fun d => (Except.ok (), d))

/-- Embeds `getState()` (`src/index.ts` lines 162-164): `{ ...this.state }` is a
copy equal to the state. -/
def getState (s : LiquidityManagerState) : LiquidityManagerState := s

/-- The reduce `(sum, pref) => sum + pref.weight` with initial value `0`. -/
def sumWeights (prefs : List LiquidityPreference) : ℚ :=
  prefs.foldl (fun sum p => sum + p.weight) 0

/-- Embeds `normalizeLiquidityWeights(address)` (`src/index.ts` lines 166-184).
The method never writes to `this.state` (it returns a freshly mapped array), so
the returned state component is always the input state. -/
def normalizeLiquidityWeights (s : LiquidityManagerState) (address : String) :
    Except LMError (List LiquidityPreference) × LiquidityManagerState :=
  (lookupA address s.signedTxs).elim (Except.error LMError.addressNotFound, s)
    fun preferences =>
      let totalWeight := sumWeights preferences
      if totalWeight = 0 then (Except.error LMError.totalWeightZero, s)
      else (Except.ok (preferences.map fun p => { p with weight := p.weight / totalWeight }), s)

/-- The reduce `(sum, details) => sum + details.percentage` over
`Object.values(this.state.addyOwnership)` with initial value `0`. -/
def totalPercentage (own : List (String × OwnershipDetails)) : ℚ :=
  own.foldl (fun sum e => sum + e.2.percentage) 0

/-- Embeds the private `recalculateVotingPower()` (`src/index.ts` lines
239-249): if the percentage total is `0` it returns without changes, otherwise
each record's `voting_power` becomes `percentage / totalPercentage`. -/
def recalculateVotingPower (s : LiquidityManagerState) : LiquidityManagerState :=
  if totalPercentage s.addyOwnership = 0 then s
  else { s with addyOwnership := s.addyOwnership.map fun e =>
    (e.1, { e.2 with voting_power := e.2.percentage / totalPercentage s.addyOwnership }) }

/-- Embeds `updateOwnership(address, tokens, percentage)` (`src/index.ts` lines
220-237): validates `percentage`, writes the record with
`voting_power = percentage`, then recalculates voting power. -/
def updateOwnership (s : LiquidityManagerState) (address : String)
    (tokens percentage : ℚ) : Except LMError Unit × LiquidityManagerState :=
  if percentage < 0 ∨ percentage > 1 then
    (Except.error LMError.percentageOutOfRange, s)
  else
    (Except.ok (), recalculateVotingPower
      { s with addyOwnership :=
          upsertA address ⟨percentage, tokens, percentage⟩ s.addyOwnership })

/-- A derived incentivized pair (`src/types.ts`). -/
structure IncentivizedPair where
  token1 : String
  token2 : String
  totalIncentive : ℚ
  addressIncentives : List (String × ℚ)
deriving DecidableEq

/-- The template key `` `${pref.token1}-${pref.token2}` `` (TS does not sort the
two tokens). -/
def pairKey (p : LiquidityPreference) : String := p.token1 ++ "-" ++ p.token2

/-- The body of the inner `preferences.forEach(pref => ...)` of
`getIncentivizedPairs` (`src/index.ts` lines 258-272): create the pair entry if
absent, then add `incentive = pref.weight * ownership.voting_power` to
`totalIncentive` and assign it to `addressIncentives[address]`. -/
def processPref (address : String) (votingPower : ℚ)
    (pairs : List (String × IncentivizedPair)) (pref : LiquidityPreference) :
    List (String × IncentivizedPair) :=
  let key := pairKey pref
  let pairs' := if lookupA key pairs = none
    then pairs ++ [(key, ⟨pref.token1, pref.token2, 0, []⟩)]
    else pairs
  let incentive := pref.weight * votingPower
  updateA key (fun pr =>
    { pr with totalIncentive := pr.totalIncentive + incentive,
              addressIncentives := upsertA address incentive pr.addressIncentives }) pairs'

/-- The body of the outer `Object.entries(this.state.signedTxs).forEach` of
`getIncentivizedPairs` (`src/index.ts` lines 254-273): an address with no
ownership record is skipped (`if (!ownership) return`). -/
def processAddress (own : List (String × OwnershipDetails))
    (pairs : List (String × IncentivizedPair))
    (entry : String × List LiquidityPreference) :
    List (String × IncentivizedPair) :=
  (lookupA entry.1 own).elim pairs
    fun ownership => entry.2.foldl (processPref entry.1 ownership.voting_power) pairs

/-- The `pairs` object built by `getIncentivizedPairs()` before taking
`Object.values`. -/
def getIncentivizedPairsMap (s : LiquidityManagerState) :
    List (String × IncentivizedPair) :=
  s.signedTxs.foldl (processAddress s.addyOwnership) []

/-- Embeds `getIncentivizedPairs()` (`src/index.ts` lines 251-276).  The TS
method returns `[Object.values(pairs), null]`: it never fails, so it is
modelled as a total function. -/
def getIncentivizedPairs (s : LiquidityManagerState) : List IncentivizedPair :=
  (getIncentivizedPairsMap s).map Prod.snd

/-- The comparator `(a, b) => b.totalIncentive - a.totalIncentive`: `a` sorts
no later than `b` exactly when the comparator is `≤ 0`. -/
def descByTotal (a b : IncentivizedPair) : Bool :=
  decide (b.totalIncentive ≤ a.totalIncentive)

/-- Length of `xs.slice(0, limit)` for a list of length `n` per the ECMAScript
`Array.prototype.slice` clamping: a negative end index counts from the end of
the array. -/
def jsSliceLen (limit : Int) (n : Nat) : Nat :=
  if limit < 0 then n - min (-limit).toNat n else min limit.toNat n

/-- Embeds `getTopIncentivizedPairs(limit)` (`src/index.ts` lines 278-288):
stable sort by descending `totalIncentive` (ECMAScript sort is stable), then
`slice(0, limit)`. -/
def getTopIncentivizedPairs (s : LiquidityManagerState) (limit : Int) :
    List IncentivizedPair :=
  let sorted := (getIncentivizedPairs s).mergeSort descByTotal
  sorted.take (jsSliceLen limit sorted.length)

/-- The reduce `(sum, incentive) => sum + incentive` over
`Object.values(pair.addressIncentives)` with initial value `0`. -/
def sumValues (l : List (String × ℚ)) : ℚ :=
  l.foldl (fun sum e => sum + e.2) 0

/-- JS `number` division: division by zero produces `NaN` (or `±Infinity`),
never a rational; those non-finite results are modelled as `none`. -/
def jsDiv (x y : ℚ) : Option ℚ := if y = 0 then none else some (x / y)

/-- Result shape of `getPairIncentiveDetails` (`src/types.ts`), with the
normalized incentives `Option`-valued because the source divides JS numbers
(see `jsDiv`). -/
structure PairIncentiveDetails where
  token1 : String
  token2 : String
  totalIncentive : ℚ
  addressIncentives : List (String × ℚ)
  normalizedIncentives : List (String × Option ℚ)
deriving DecidableEq

/-- Embeds `getPairIncentiveDetails(token1, token2)` (`src/index.ts` lines
290-319): finds the pair in either token order, recomputes `totalIncentive` as
the sum of the per-address map, and divides every contribution by that total. -/
def getPairIncentiveDetails (s : LiquidityManagerState) (token1 token2 : String) :
    Except LMError PairIncentiveDetails :=
  let pairs := getIncentivizedPairs s
  (pairs.find? fun p =>
      (p.token1 == token1 && p.token2 == token2) ||
      (p.token1 == token2 && p.token2 == token1)).elim
    (Except.error LMError.pairNotFound)
    fun pair =>
      let totalIncentive := sumValues pair.addressIncentives
      Except.ok ⟨pair.token1, pair.token2, totalIncentive, pair.addressIncentives,
        pair.addressIncentives.map fun e => (e.1, jsDiv e.2 totalIncentive)⟩

/-- Proof-side view of the aggregation: one event per preference record of an
address that has an ownership record, carrying the address, its voting power
and the record. -/
structure AggEvent where
  addr : String
  vp : ℚ
  pref : LiquidityPreference

/-- The pair key an event accumulates into. -/
def evKey (ev : AggEvent) : String := pairKey ev.pref

/-- One aggregation step of `getIncentivizedPairs`, as acting on an event. -/
def stepEvent (pairs : List (String × IncentivizedPair)) (ev : AggEvent) :
    List (String × IncentivizedPair) :=
  processPref ev.addr ev.vp pairs ev.pref

/-- The flat sequence of aggregation events produced by the nested loops of
`getIncentivizedPairs`, in execution order. -/
def eventsOf (own : List (String × OwnershipDetails))
    (txs : List (String × List LiquidityPreference)) : List AggEvent :=
  txs.flatMap fun entry => (lookupA entry.1 own).elim []
    fun o => entry.2.map fun p => ⟨entry.1, o.voting_power, p⟩

/-- Invariant: a pair entry's `totalIncentive` equals the sum of its
per-address contribution values. -/
def GoodEntry (e : String × IncentivizedPair) : Prop :=
  e.2.totalIncentive = sumValues e.2.addressIncentives

/-- Address `a` has not yet contributed to any entry stored under key `k`. -/
def FreshFor (a k : String) (m : List (String × IncentivizedPair)) : Prop :=
  ∀ e ∈ m, e.1 = k → lookupA a e.2.addressIncentives = none

/-- The scenario state of claim C1: ownership `{A: 0.6, B: 0.4}`, preferences
`A:[(X,Y,0.7)]`, `B:[(X,Y,0.5)]`. -/
def stateScenario : LiquidityManagerState :=
  ⟨[("A", [⟨"X", "Y", 0.7⟩]), ("B", [⟨"X", "Y", 0.5⟩])],
   [("A", ⟨0.6, 1000, 0.6⟩), ("B", ⟨0.4, 500, 0.4⟩)]⟩

/-- A state whose aggregation yields two distinct pairs. -/
def stateTwoPairs : LiquidityManagerState :=
  ⟨[("A", [⟨"X", "Y", 0.7⟩, ⟨"U", "V", 0.3⟩])], [("A", ⟨1, 1000, 1⟩)]⟩

/-- A state in which address `A` is present in the preference table with zero
preference records. -/
def stateEmptyPrefList : LiquidityManagerState := ⟨[("A", [])], []⟩

/-- A state in which address `B` has one preference record of weight `0`. -/
def stateZeroWeight : LiquidityManagerState := ⟨[("B", [⟨"X", "Y", 0⟩])], []⟩

/-- A state in which address `A` has a preference record but no ownership
record. -/
def stateNoOwnership : LiquidityManagerState := ⟨[("A", [⟨"X", "Y", 1⟩])], []⟩

/-- A state in which `A` (no ownership record) and `B` (full ownership) both
prefer the pair X-Y. -/
def stateSharedPair : LiquidityManagerState :=
  ⟨[("A", [⟨"X", "Y", 1⟩]), ("B", [⟨"X", "Y", 1⟩])], [("B", ⟨1, 1, 1⟩)]⟩

/-- A state whose only pair has `totalIncentive = 0`: address `A` holds voting
power `0` and prefers X-Y with weight `1`. -/
def stateZeroIncentive : LiquidityManagerState :=
  ⟨[("A", [⟨"X", "Y", 1⟩])], [("A", ⟨0, 0, 0⟩)]⟩

/-! Helper lemmas about the association-list primitives and the fold sums. -/

theorem foldl_add_eq {α : Type} (f : α → ℚ) :
    ∀ (l : List α) (c : ℚ), l.foldl (fun s x => s + f x) c = c + (l.map f).sum
  | [], c => by simp
  | x :: xs, c => by
    simp [foldl_add_eq f xs (c + f x), add_assoc]

theorem sumWeights_eq (l : List LiquidityPreference) :
    sumWeights l = (l.map fun p => p.weight).sum := by
  simp [sumWeights, foldl_add_eq]

theorem sumValues_eq (l : List (String × ℚ)) : sumValues l = (l.map fun e => e.2).sum := by
  simp [sumValues, foldl_add_eq]

theorem totalPercentage_eq (l : List (String × OwnershipDetails)) :
    totalPercentage l = (l.map fun e => e.2.percentage).sum := by
  simp [totalPercentage, foldl_add_eq]

theorem lookupA_upsertA_of_ne {α : Type} {a b : String} (v : α) (h : a ≠ b) :
    ∀ l : List (String × α), lookupA a (upsertA b v l) = lookupA a l
  | [] => by simp [lookupA, upsertA, Ne.symm h]
  | (k, w) :: rest => by
    by_cases hk : k = b
    · subst hk
      simp [lookupA, upsertA, Ne.symm h]
    · simp only [upsertA, if_neg hk, lookupA]
      by_cases hk2 : k = a <;> simp [hk2, lookupA_upsertA_of_ne v h rest]

theorem upsertA_of_lookupA_none {α : Type} {k : String} (v : α) :
    ∀ {l : List (String × α)}, lookupA k l = none → upsertA k v l = l ++ [(k, v)]
  | [], _ => rfl
  | (k', w) :: rest, h => by
    by_cases hk : k' = k
    · simp [lookupA, hk] at h
    · simp only [lookupA, if_neg hk] at h
      simp [upsertA, if_neg hk, upsertA_of_lookupA_none v h]

theorem sumValues_append (l₁ l₂ : List (String × ℚ)) :
    sumValues (l₁ ++ l₂) = sumValues l₁ + sumValues l₂ := by
  simp [sumValues_eq]

theorem sumValues_upsertA_of_none {a : String} {v : ℚ} {l : List (String × ℚ)}
    (h : lookupA a l = none) : sumValues (upsertA a v l) = sumValues l + v := by
  rw [upsertA_of_lookupA_none v h, sumValues_append]
  simp [sumValues]

theorem updateA_append_singleton {α : Type} {k : String} (f : α → α) (v : α) :
    ∀ {l : List (String × α)}, lookupA k l = none →
      updateA k f (l ++ [(k, v)]) = l ++ [(k, f v)]
  | [], _ => by simp [updateA]
  | (k', w) :: rest, h => by
    by_cases hk : k' = k
    · simp [lookupA, hk] at h
    · simp only [lookupA, if_neg hk] at h
      simp [updateA, if_neg hk, updateA_append_singleton f v h]

theorem mem_updateA {α : Type} {k : String} {f : α → α} :
    ∀ (l : List (String × α)) (e : String × α), e ∈ updateA k f l →
      e ∈ l ∨ ∃ v, (k, v) ∈ l ∧ e = (k, f v)
  | [], e, he => by simp [updateA] at he
  | (k', w) :: rest, e, he => by
    by_cases hk : k' = k
    · subst hk
      simp only [updateA, if_pos, List.mem_cons] at he
      rcases he with he2 | he2
      · exact Or.inr ⟨w, List.mem_cons_self _ _, he2⟩
      · exact Or.inl (List.mem_cons_of_mem _ he2)
    · simp only [updateA, if_neg hk, List.mem_cons] at he
      rcases he with he2 | he2
      · exact Or.inl (he2 ▸ List.mem_cons_self _ _)
      · rcases mem_updateA rest e he2 with h1 | ⟨v, hv, hev⟩
        · exact Or.inl (List.mem_cons_of_mem _ h1)
        · exact Or.inr ⟨v, List.mem_cons_of_mem _ hv, hev⟩

/-- Membership in the result of one aggregation step: either an untouched
entry, or the entry at the step's pair key, rebuilt by the step's update from
a previous value (a fresh empty entry or an entry already in the map). -/
theorem mem_processPref {addr : String} {vp : ℚ} {pref : LiquidityPreference}
    {m : List (String × IncentivizedPair)} {e : String × IncentivizedPair}
    (he : e ∈ processPref addr vp m pref) :
    e ∈ m ∨ ∃ old : IncentivizedPair,
      (old = ⟨pref.token1, pref.token2, 0, []⟩ ∨ (pairKey pref, old) ∈ m) ∧
      e = (pairKey pref,
        { old with
            totalIncentive := old.totalIncentive + pref.weight * vp,
            addressIncentives := upsertA addr (pref.weight * vp) old.addressIncentives }) := by
  simp only [processPref] at he
  by_cases h : lookupA (pairKey pref) m = none
  · rw [if_pos h, updateA_append_singleton _ _ h, List.mem_append] at he
    rcases he with he | he
    · exact Or.inl he
    · simp only [List.mem_singleton] at he
      exact Or.inr ⟨_, Or.inl rfl, he⟩
  · rw [if_neg h] at he
    rcases mem_updateA _ _ he with h1 | ⟨v, hv, hev⟩
    · exact Or.inl h1
    · exact Or.inr ⟨v, Or.inr hv, hev⟩

/-- One aggregation step keeps every entry's `totalIncentive` equal to the sum
of its contributions, provided the stepping address has not yet contributed to
the step's pair key. -/
theorem goodEntry_processPref {addr : String} {vp : ℚ} {pref : LiquidityPreference}
    {m : List (String × IncentivizedPair)} (hm : ∀ e ∈ m, GoodEntry e)
    (hf : FreshFor addr (pairKey pref) m) :
    ∀ e ∈ processPref addr vp m pref, GoodEntry e := by
  intro e he
  rcases mem_processPref he with h1 | ⟨old, hold, rfl⟩
  · exact hm e h1
  · rcases hold with rfl | hold
    · simp [GoodEntry, sumValues, upsertA]
    · have hgood := hm _ hold
      have hfr := hf _ hold rfl
      simp only [GoodEntry] at hgood ⊢
      rw [sumValues_upsertA_of_none hfr, hgood]

/-- One aggregation step preserves freshness of any (address, key) pair other
than its own. -/
theorem freshFor_processPref {a' k' addr : String} {vp : ℚ}
    {pref : LiquidityPreference} {m : List (String × IncentivizedPair)}
    (hf : FreshFor a' k' m) (hne : a' ≠ addr ∨ k' ≠ pairKey pref) :
    FreshFor a' k' (processPref addr vp m pref) := by
  intro e he hek
  rcases mem_processPref he with h1 | ⟨old, hold, rfl⟩
  · exact hf e h1 hek
  · simp only at hek
    have hak : a' ≠ addr := by
      rcases hne with h | h
      · exact h
      · exact absurd hek.symm h
    simp only
    rw [lookupA_upsertA_of_ne _ hak]
    rcases hold with rfl | hold
    · rfl
    · exact hf _ hold hek

/-- One aggregation step of an address other than `a` never introduces a
contribution from `a`. -/
theorem lookupA_none_processPref {a addr : String} {vp : ℚ}
    {pref : LiquidityPreference} {m : List (String × IncentivizedPair)}
    (hm : ∀ e ∈ m, lookupA a e.2.addressIncentives = none) (hne : a ≠ addr) :
    ∀ e ∈ processPref addr vp m pref, lookupA a e.2.addressIncentives = none := by
  intro e he
  rcases mem_processPref he with h1 | ⟨old, hold, rfl⟩
  · exact hm e h1
  · simp only
    rw [lookupA_upsertA_of_ne _ hne]
    rcases hold with rfl | hold
    · rfl
    · exact hm _ hold

/-- The nested loops of `getIncentivizedPairs` compute the same map as a
single fold over the flattened event sequence. -/
theorem foldl_processAddress_eq (own : List (String × OwnershipDetails)) :
    ∀ (txs : List (String × List LiquidityPreference))
      (m : List (String × IncentivizedPair)),
      txs.foldl (processAddress own) m = (eventsOf own txs).foldl stepEvent m
  | [], m => rfl
  | entry :: txs, m => by
    simp only [List.foldl_cons, eventsOf, List.flatMap_cons, List.foldl_append]
    rw [show (txs.flatMap fun entry => (lookupA entry.1 own).elim []
        fun o => entry.2.map fun p => AggEvent.mk entry.1 o.voting_power p) =
        eventsOf own txs from rfl]
    rw [← foldl_processAddress_eq own txs]
    congr 1
    cases hl : lookupA entry.1 own with
    | none => simp [processAddress, hl]
    | some o => simp [processAddress, hl, List.foldl_map, stepEvent]

/-- Every event's address has an ownership record. -/
theorem owned_of_mem_eventsOf (own : List (String × OwnershipDetails)) :
    ∀ (txs : List (String × List LiquidityPreference)) (ev : AggEvent),
      ev ∈ eventsOf own txs → lookupA ev.addr own ≠ none
  | [], ev, h => by simp [eventsOf] at h
  | entry :: txs, ev, h => by
    simp only [eventsOf, List.flatMap_cons, List.mem_append] at h
    rcases h with h | h
    · cases hl : lookupA entry.1 own with
      | none => rw [hl] at h; simp at h
      | some o =>
        rw [hl] at h
        simp only [Option.elim_some, List.mem_map] at h
        obtain ⟨p, _, rfl⟩ := h
        simp [hl]
    · exact owned_of_mem_eventsOf own txs ev h

/-- Every event's address is a key of the preference table. -/
theorem addr_mem_of_mem_eventsOf (own : List (String × OwnershipDetails)) :
    ∀ (txs : List (String × List LiquidityPreference)) (ev : AggEvent),
      ev ∈ eventsOf own txs → ev.addr ∈ txs.map Prod.fst
  | [], ev, h => by simp [eventsOf] at h
  | entry :: txs, ev, h => by
    simp only [eventsOf, List.flatMap_cons, List.mem_append] at h
    simp only [List.map_cons, List.mem_cons]
    rcases h with h | h
    · cases hl : lookupA entry.1 own with
      | none => rw [hl] at h; simp at h
      | some o =>
        rw [hl] at h
        simp only [Option.elim_some, List.mem_map] at h
        obtain ⟨p, _, rfl⟩ := h
        exact Or.inl rfl
    · exact Or.inr (addr_mem_of_mem_eventsOf own txs ev h)

/-- If the preference-table keys are distinct and each address's records have
distinct pair keys, then the (address, pair key) projections of the event
sequence are distinct. -/
theorem nodup_eventsOf_proj (own : List (String × OwnershipDetails)) :
    ∀ (txs : List (String × List LiquidityPreference)),
      (txs.map Prod.fst).Nodup →
      (∀ e ∈ txs, (e.2.map pairKey).Nodup) →
      ((eventsOf own txs).map fun ev => (ev.addr, evKey ev)).Nodup
  | [], _, _ => by simp [eventsOf]
  | entry :: txs, h1, h2 => by
    simp only [List.map_cons, List.nodup_cons] at h1
    simp only [eventsOf, List.flatMap_cons, List.map_append]
    rw [List.nodup_append]
    refine ⟨?_, ?_, ?_⟩
    · cases hl : lookupA entry.1 own with
      | none => simp
      | some o =>
        simp only [Option.elim_some, List.map_map]
        have hinj : Function.Injective (Prod.mk entry.1 : String → String × String) :=
          fun x y hxy => congrArg Prod.snd hxy
        have hnd := (h2 entry (List.mem_cons_self _ _)).map hinj
        rw [List.map_map] at hnd
        exact hnd
    · exact nodup_eventsOf_proj own txs h1.2
        (fun e he => h2 e (List.mem_cons_of_mem _ he))
    · intro x hx1 hx2
      have hx1' : x.1 = entry.1 := by
        cases hl : lookupA entry.1 own with
        | none => rw [hl] at hx1; simp at hx1
        | some o =>
          rw [hl] at hx1
          simp only [Option.elim_some, List.map_map, List.mem_map] at hx1
          obtain ⟨p, _, rfl⟩ := hx1
          rfl
      have hx2' : x.1 ∈ txs.map Prod.fst := by
        simp only [List.mem_map] at hx2
        obtain ⟨ev, hev, rfl⟩ := hx2
        exact addr_mem_of_mem_eventsOf own txs ev hev
      rw [hx1'] at hx2'
      exact h1.1 hx2'

/-- Folding the event sequence from a good, fresh map keeps every entry good,
as long as no (address, pair key) combination repeats. -/
theorem goodEntry_foldl :
    ∀ (evs : List AggEvent) (m : List (String × IncentivizedPair)),
      (∀ e ∈ m, GoodEntry e) →
      (∀ ev ∈ evs, FreshFor ev.addr (evKey ev) m) →
      ((evs.map fun ev => (ev.addr, evKey ev)).Nodup) →
      ∀ e ∈ evs.foldl stepEvent m, GoodEntry e
  | [], m, hm, _, _ => hm
  | ev :: evs, m, hm, hf, hnd => by
    simp only [List.map_cons, List.nodup_cons] at hnd
    simp only [List.foldl_cons]
    apply goodEntry_foldl evs (stepEvent m ev)
    · exact goodEntry_processPref hm (hf ev (List.mem_cons_self _ _))
    · intro ev' hev'
      apply freshFor_processPref (hf ev' (List.mem_cons_of_mem _ hev'))
      by_contra hc
      push_neg at hc
      obtain ⟨ha, hk⟩ := hc
      have hmem : (ev'.addr, evKey ev') ∈ evs.map fun e => (e.addr, evKey e) :=
        List.mem_map_of_mem _ hev'
      rw [ha, hk] at hmem
      exact hnd.1 hmem
    · exact hnd.2

/-- Folding events whose addresses all differ from `a` never introduces a
contribution from `a`. -/
theorem lookupA_none_foldl_events {a : String} :
    ∀ (evs : List AggEvent) (m : List (String × IncentivizedPair)),
      (∀ e ∈ m, lookupA a e.2.addressIncentives = none) →
      (∀ ev ∈ evs, ev.addr ≠ a) →
      ∀ e ∈ evs.foldl stepEvent m, lookupA a e.2.addressIncentives = none
  | [], m, hm, _ => hm
  | ev :: evs, m, hm, hne => by
    simp only [List.foldl_cons]
    apply lookupA_none_foldl_events evs (stepEvent m ev)
    · exact lookupA_none_processPref hm (Ne.symm (hne ev (List.mem_cons_self _ _)))
    · exact fun ev' hev' => hne ev' (List.mem_cons_of_mem _ hev')

theorem sum_map_div (l : List ℚ) (c : ℚ) : (l.map fun x => x / c).sum = l.sum / c := by
  induction l with
  | nil => simp
  | cons x xs ih => simp [ih, add_div]

theorem sumWeights_normalized (prefs : List LiquidityPreference) (c : ℚ) :
    sumWeights (prefs.map fun p => { p with weight := p.weight / c }) =
      sumWeights prefs / c := by
  rw [sumWeights_eq, sumWeights_eq, List.map_map, ← sum_map_div, List.map_map]
  rfl

theorem totalPercentage_map_voting_power (l : List (String × OwnershipDetails))
    (g : String × OwnershipDetails → ℚ) :
    totalPercentage (l.map fun e => (e.1, { e.2 with voting_power := g e })) =
      totalPercentage l := by
  rw [totalPercentage_eq, totalPercentage_eq, List.map_map]
  rfl

/-! The claims. -/

/-- C1: for the ledger state with ownership records A (stake 0.6, voting power
0.6) and B (stake 0.4, voting power 0.4) and preferences A:[(X,Y,0.7)] and
B:[(X,Y,0.5)], `getIncentivizedPairs` yields exactly one pair X-Y with
`totalIncentive` 0.62 and per-address contributions A: 0.42, B: 0.2. -/
theorem incentivized_pairs_scenario_C1 :
    getIncentivizedPairs stateScenario =
      [⟨"X", "Y", 0.62, [("A", 0.42), ("B", 0.2)]⟩] := by
  simp [stateScenario, getIncentivizedPairs, getIncentivizedPairsMap, processAddress,
    processPref, lookupA, upsertA, updateA, pairKey]
  norm_num

/-- C2: for every address with at least one preference record and nonzero
weight sum, `normalizeLiquidityWeights` succeeds and the weights of the
returned preference records sum to 1.0 within 1e-9 (in the rational model the
sum is exactly 1). -/
theorem normalize_sum_one_C2 (s : LiquidityManagerState) (address : String)
    (prefs : List LiquidityPreference)
    (h1 : lookupA address s.signedTxs = some prefs) (_hne : prefs ≠ [])
    (h3 : sumWeights prefs ≠ 0) :
    ∃ result, (normalizeLiquidityWeights s address).1 = Except.ok result ∧
      |sumWeights result - 1| ≤ 1 / 1000000000 := by
  refine ⟨prefs.map fun p => { p with weight := p.weight / sumWeights prefs }, ?_, ?_⟩
  · simp [normalizeLiquidityWeights, h1, h3]
  · rw [sumWeights_normalized, div_self h3]
    norm_num

/-- Witness for C2 at the C1 scenario state and address `A`. -/
theorem normalize_sum_one_C2_witness :
    lookupA "A" stateScenario.signedTxs = some [⟨"X", "Y", 0.7⟩] ∧
    ∃ result, (normalizeLiquidityWeights stateScenario "A").1 = Except.ok result ∧
      |sumWeights result - 1| ≤ 1 / 1000000000 :=
  ⟨rfl, normalize_sum_one_C2 stateScenario "A" [⟨"X", "Y", 0.7⟩] rfl
    (by simp) (by norm_num [sumWeights])⟩

/-- C3 counterexample: with two aggregated pairs and `limit = -1`,
`getTopIncentivizedPairs` returns a nonempty sequence — the claim that every
`limit ≤ 0` yields the empty sequence is false (ECMAScript `slice(0, -1)`
drops only the last element). -/
theorem topPairs_negative_limit_counterexample_C3 :
    getTopIncentivizedPairs stateTwoPairs (-1) ≠ [] := by
  have hp : (getIncentivizedPairs stateTwoPairs).length = 2 := by
    simp [stateTwoPairs, getIncentivizedPairs, getIncentivizedPairsMap, processAddress,
      processPref, lookupA, upsertA, updateA, pairKey]
  have hlen : (getTopIncentivizedPairs stateTwoPairs (-1)).length = 1 := by
    simp [getTopIncentivizedPairs, jsSliceLen, hp]
  intro h
  rw [h] at hlen
  simp at hlen

/-- C3 (amended): `getTopIncentivizedPairs` is sorted descending by
`totalIncentive`, and its length is `min limit totalPairs` for `limit ≥ 0`;
a negative `limit` follows the ECMAScript negative-end-index semantics of
`slice` (length `max (totalPairs + limit) 0`), captured by `jsSliceLen`. -/
theorem topPairs_sorted_length_C3 (s : LiquidityManagerState) (limit : Int) :
    (getTopIncentivizedPairs s limit).Pairwise
      (fun a b => b.totalIncentive ≤ a.totalIncentive) ∧
    (getTopIncentivizedPairs s limit).length =
      jsSliceLen limit (getIncentivizedPairs s).length := by
  constructor
  · have htrans : ∀ a b c : IncentivizedPair,
        descByTotal a b → descByTotal b c → descByTotal a c := by
      intro a b c hab hbc
      simp only [descByTotal, decide_eq_true_eq] at *
      exact le_trans hbc hab
    have htotal : ∀ a b : IncentivizedPair, descByTotal a b || descByTotal b a := by
      intro a b
      simp only [descByTotal, Bool.or_eq_true, decide_eq_true_eq]
      exact le_total _ _
    have hs := List.sorted_mergeSort htrans htotal (getIncentivizedPairs s)
    simp only [getTopIncentivizedPairs]
    exact (List.Pairwise.sublist (List.take_sublist _ _) hs).imp
      fun h => by simpa [descByTotal] using h
  · simp only [getTopIncentivizedPairs]
    rw [List.length_take, List.length_mergeSort]
    have hle : jsSliceLen limit (getIncentivizedPairs s).length ≤
        (getIncentivizedPairs s).length := by
      unfold jsSliceLen
      split <;> omega
    omega

/-- C4: `updateOwnership` fails with the out-of-range error exactly when the
stake fraction lies outside `[0, 1]`, and on failure the state (hence the
ownership table) is unchanged, so an address absent before the call is still
absent after it. -/
theorem updateOwnership_range_C4 (s : LiquidityManagerState) (address : String)
    (tokens percentage : ℚ) :
    ((updateOwnership s address tokens percentage).1 =
        Except.error LMError.percentageOutOfRange ↔
      percentage < 0 ∨ 1 < percentage) ∧
    (percentage < 0 ∨ 1 < percentage →
      (updateOwnership s address tokens percentage).2 = s) := by
  by_cases h : percentage < 0 ∨ percentage > 1
  · exact ⟨by simp [updateOwnership, h], fun _ => by simp [updateOwnership, h]⟩
  · exact ⟨by simp [updateOwnership, h], fun hd => absurd hd h⟩

/-- Witness for C4: `updateOwnership ⟨[], []⟩ C 1000 1.5` fails and leaves the
empty state (address `C` stays absent). -/
theorem updateOwnership_range_C4_witness :
    (updateOwnership ⟨[], []⟩ "C" 1000 1.5).1 =
      Except.error LMError.percentageOutOfRange ∧
    (updateOwnership ⟨[], []⟩ "C" 1000 1.5).2 = ⟨[], []⟩ :=
  ⟨(updateOwnership_range_C4 ⟨[], []⟩ "C" 1000 1.5).1.mpr (Or.inr (by norm_num)),
   (updateOwnership_range_C4 ⟨[], []⟩ "C" 1000 1.5).2 (Or.inr (by norm_num))⟩

/-- C5 counterexample: in a state where address `A` is present in the
preference table with zero preference records, `normalizeLiquidityWeights`
fails with the zero-total-weight error, not the address-not-found error the
claim predicts for an address with no preference records. -/
theorem normalize_empty_list_counterexample_C5 :
    (normalizeLiquidityWeights stateEmptyPrefList "A").1 =
      Except.error LMError.totalWeightZero ∧
    (normalizeLiquidityWeights stateEmptyPrefList "A").1 ≠
      Except.error LMError.addressNotFound := by
  constructor <;> simp [stateEmptyPrefList, normalizeLiquidityWeights, lookupA, sumWeights]

/-- C5 (amended): `normalizeLiquidityWeights` fails with the address-not-found
error when the address is absent from the preference table, and with the
zero-total-weight error when the address is present with weight sum 0; in both
cases the state (hence the preference list) is unchanged. -/
theorem normalize_errors_C5 (s : LiquidityManagerState) (address : String) :
    (lookupA address s.signedTxs = none →
      normalizeLiquidityWeights s address = (Except.error LMError.addressNotFound, s)) ∧
    (∀ prefs, lookupA address s.signedTxs = some prefs → sumWeights prefs = 0 →
      normalizeLiquidityWeights s address = (Except.error LMError.totalWeightZero, s)) := by
  constructor
  · intro h
    simp [normalizeLiquidityWeights, h]
  · intro prefs h hz
    simp [normalizeLiquidityWeights, h, hz]

/-- Witness for C5 at a state whose only entry is `B` with an all-zero weight
record: `A` is absent, `B` has weight sum 0. -/
theorem normalize_errors_C5_witness :
    normalizeLiquidityWeights stateZeroWeight "A" =
      (Except.error LMError.addressNotFound, stateZeroWeight) ∧
    normalizeLiquidityWeights stateZeroWeight "B" =
      (Except.error LMError.totalWeightZero, stateZeroWeight) :=
  ⟨(normalize_errors_C5 stateZeroWeight "A").1 rfl,
   (normalize_errors_C5 stateZeroWeight "B").2 [⟨"X", "Y", 0⟩] rfl (by simp [sumWeights])⟩

/-- C6: `recalculateVotingPower` is idempotent — applying it twice produces
the same state (in particular the same ownership table and `voting_power`
values) as applying it once. -/
theorem recalculateVotingPower_idem_C6 (s : LiquidityManagerState) :
    recalculateVotingPower (recalculateVotingPower s) = recalculateVotingPower s := by
  by_cases h : totalPercentage s.addyOwnership = 0
  · have hs : recalculateVotingPower s = s := by
      unfold recalculateVotingPower
      rw [if_pos h]
    rw [hs, hs]
  · have hs : recalculateVotingPower s =
        { s with addyOwnership := s.addyOwnership.map (fun e =>
            (e.1, { e.2 with voting_power :=
              e.2.percentage / totalPercentage s.addyOwnership })) } := by
      unfold recalculateVotingPower
      rw [if_neg h]
    rw [hs]
    unfold recalculateVotingPower
    dsimp only
    rw [totalPercentage_map_voting_power, if_neg h, List.map_map]
    rfl

/-- C7: loading a well-formed state with `initialize` succeeds and a following
`getState` returns that state verbatim (no normalization or validation on
load). -/
theorem bulkLoad_roundtrip_C7 (s d : LiquidityManagerState) :
    (initializeState s (some d)).1 = Except.ok () ∧
    getState (initializeState s (some d)).2 = d :=
  ⟨rfl, rfl⟩

/-- C8 counterexample: address `A` has one preference record and no ownership
record, and `getIncentivizedPairs` yields no pair at all — the TS
implementation skips such addresses instead of treating their voting power as
0 and emitting a zero contribution. -/
theorem missing_ownership_skipped_counterexample_C8 :
    getIncentivizedPairs stateNoOwnership = [] := by
  simp [stateNoOwnership, getIncentivizedPairs, getIncentivizedPairsMap,
    processAddress, lookupA]

/-- C8 (amended): `getIncentivizedPairs` never fails; an address with
preference records but no ownership record is skipped entirely, so it appears
in no pair's per-address contribution map. -/
theorem missing_ownership_no_contribution_C8 (s : LiquidityManagerState)
    (a : String) (h : lookupA a s.addyOwnership = none) :
    ∀ p ∈ getIncentivizedPairs s, lookupA a p.addressIncentives = none := by
  intro p hp
  simp only [getIncentivizedPairs, getIncentivizedPairsMap,
    foldl_processAddress_eq s.addyOwnership s.signedTxs] at hp
  obtain ⟨e, he, rfl⟩ := List.mem_map.1 hp
  refine lookupA_none_foldl_events _ [] (by simp) ?_ e he
  intro ev hev hcontra
  exact owned_of_mem_eventsOf _ _ ev hev (hcontra ▸ h)

/-- Witness for C8 at a state where `A` (no ownership record) and `B` (full
ownership) share a pair: `A` appears in no contribution map. -/
theorem missing_ownership_no_contribution_C8_witness :
    lookupA "A" stateSharedPair.addyOwnership = none ∧
    ∀ p ∈ getIncentivizedPairs stateSharedPair,
      lookupA "A" p.addressIncentives = none :=
  ⟨rfl, missing_ownership_no_contribution_C8 stateSharedPair "A" rfl⟩

/-- C9: at a state whose only pair X-Y has `totalIncentive = 0`,
`getPairIncentiveDetails` succeeds and divides each contribution by the zero
total — the division by zero yields a non-finite JS number (`none` in the
model), so the result is neither a failure nor an all-zero map. -/
theorem pairDetails_zero_total_nan_C9 :
    getPairIncentiveDetails stateZeroIncentive "X" "Y" =
      Except.ok ⟨"X", "Y", 0, [("A", 0)], [("A", none)]⟩ := by
  simp [stateZeroIncentive, getPairIncentiveDetails, getIncentivizedPairs,
    getIncentivizedPairsMap, processAddress, processPref, lookupA, upsertA, updateA,
    pairKey, sumValues, jsDiv]

/-- C10: in every state whose preference-table keys are distinct (a JS object
invariant) and in which no address has two preference records with the same
pair key, every pair produced by `getIncentivizedPairs` has `totalIncentive`
equal to the sum of its per-address contribution values. -/
theorem totalIncentive_eq_sum_contributions_C10 (s : LiquidityManagerState)
    (h1 : (s.signedTxs.map Prod.fst).Nodup)
    (h2 : ∀ e ∈ s.signedTxs, (e.2.map pairKey).Nodup) :
    ∀ p ∈ getIncentivizedPairs s, p.totalIncentive = sumValues p.addressIncentives := by
  intro p hp
  simp only [getIncentivizedPairs, getIncentivizedPairsMap,
    foldl_processAddress_eq s.addyOwnership s.signedTxs] at hp
  obtain ⟨e, he, rfl⟩ := List.mem_map.1 hp
  refine goodEntry_foldl _ [] (by simp) ?_
    (nodup_eventsOf_proj s.addyOwnership s.signedTxs h1 h2) e he
  intro ev _ e' he' _
  simp at he'

/-- Witness for C10 at the C1 scenario state. -/
theorem totalIncentive_eq_sum_contributions_C10_witness :
    ((stateScenario.signedTxs.map Prod.fst).Nodup ∧
      ∀ e ∈ stateScenario.signedTxs, (e.2.map pairKey).Nodup) ∧
    ∀ p ∈ getIncentivizedPairs stateScenario,
      p.totalIncentive = sumValues p.addressIncentives :=
  ⟨⟨by decide, by decide⟩,
   totalIncentive_eq_sum_contributions_C10 stateScenario (by decide) (by decide)⟩

end VoteLiq
